import Mathlib

/-!
Verification development for the source-acquisition engine of a resale-arbitrage
research pipeline (`uk_resell_adk`).  The Python modules under
`src/uk_resell_adk/` are shallowly embedded below: pure helpers become Lean
functions on `List`/`String`/`ℚ`, process-wide mutable state (the currency rate
table, diagnostics) is passed explicitly, network fetches are modelled as
function-typed inputs (`String → Option …` / `Except Unit …`), and Python
exceptions become `Except`/`Option` results.  Python `float` arithmetic in the
extractor and profitability paths is modelled with `ℚ`: every concrete value
appearing in those theorems is exactly representable, double-checked against
IEEE-754 evaluation, so the ℚ model and the float program agree there.  The
FX-refresh path is different: `json.loads` can hand it the non-finite doubles
`inf`/`-inf`/`nan` (overflowing literals such as `1e400`, or the non-standard
`Infinity`/`NaN` tokens the decoder accepts), so that path is modelled with an
explicit `PyFloat` type — a finite rational, the two infinities, or NaN —
whose comparisons and reciprocal follow IEEE-754 semantics.

Section 1 holds the definitions (translated from the Python source, file by
file); section 2 holds the theorems settling the claims.
-/

/-! ### 1. Definitions -/

/-! #### 1.1 Currency service (`sources/common.py`) -/

/-- The process-wide currency table `_CURRENCY_TO_GBP` of `sources/common.py`,
as the conversion/extraction path reads it (finite rational rates).  Its key
set is fixed for the whole process life: it is seeded with the four keys
GBP/EUR/USD/JPY and `refresh_currency_rates` only ever writes those same keys,
so the dict is modelled as a four-field record.  The refresh routine itself,
whose faithfulness requires the IEEE special values, is modelled over
`FloatRateTable` below; this finite view is the table the extractor claims
quantify over (their conclusions hold for arbitrary entries). -/
structure RateTable where
  gbp : ℚ
  eur : ℚ
  usd : ℚ
  jpy : ℚ
  deriving Repr, DecidableEq

/-- `_DEFAULT_CURRENCY_TO_GBP = {"GBP": 1.0, "EUR": 0.86, "USD": 0.79, "JPY": 0.0053}`. -/
def _DEFAULT_CURRENCY_TO_GBP : RateTable :=
  { gbp := 1, eur := 86/100, usd := 79/100, jpy := 53/10000 }

/-- Dict lookup `_CURRENCY_TO_GBP.get(code)`: the key set is exactly
GBP/EUR/USD/JPY, any other code misses. -/
def RateTable.get (t : RateTable) (code : String) : Option ℚ :=
  if code = "GBP" then some t.gbp
  else if code = "EUR" then some t.eur
  else if code = "USD" then some t.usd
  else if code = "JPY" then some t.jpy
  else none

/-- An IEEE-754 double as Python sees it: a finite value (whose magnitude is
modelled exactly by a rational), one of the two infinities, or NaN.  Producers
map overflow to the infinities, as CPython does. -/
inductive PyFloat where
  | finite (q : ℚ)
  | inf
  | ninf
  | nan
  deriving Repr, DecidableEq

/-- Python `x <= 0` on a float: ordinary comparison for finite values,
`-inf <= 0` is true, `inf <= 0` is false, and every NaN comparison is false. -/
def PyFloat.le0 : PyFloat → Bool
  | .finite q => decide (q ≤ 0)
  | .inf => false
  | .ninf => true
  | .nan => false

/-- Python `1.0 / x` at the one use site (a value that passed the `<= 0`
guard): the exact reciprocal of a positive finite value, `1.0/inf == 0.0`, and
`1.0/nan == nan`.  (`finite 0` would raise ZeroDivisionError and `ninf` gives
`-0.0`; both are unreachable behind the guard — `0 <= 0` and `-inf <= 0` hold —
and are mapped to `finite (1/q)` = `finite 0` by the ℚ convention.) -/
def PyFloat.recip : PyFloat → PyFloat
  | .finite q => .finite (1 / q)
  | .inf => .finite 0
  | .ninf => .finite 0
  | .nan => .nan

/-- Whether the float is finite (neither an infinity nor NaN). -/
def PyFloat.isFinite : PyFloat → Bool
  | .finite _ => true
  | _ => false

/-- Python `x > 0` on a float: NaN comparisons are false, `inf` is positive. -/
def PyFloat.isPos : PyFloat → Prop
  | .finite q => 0 < q
  | .inf => True
  | .ninf => False
  | .nan => False

/-- Python `not (x < 0)` on a float: NaN is not negative (its comparisons are
all false), `-inf` is negative. -/
def PyFloat.notNeg : PyFloat → Prop
  | .finite q => 0 ≤ q
  | .inf => True
  | .ninf => False
  | .nan => True

instance : DecidablePred PyFloat.isPos := fun x =>
  match x with
  | .finite q => inferInstanceAs (Decidable (0 < q))
  | .inf => .isTrue trivial
  | .ninf => .isFalse (fun h => h)
  | .nan => .isFalse (fun h => h)

instance : DecidablePred PyFloat.notNeg := fun x =>
  match x with
  | .finite q => inferInstanceAs (Decidable (0 ≤ q))
  | .inf => .isTrue trivial
  | .ninf => .isFalse (fun h => h)
  | .nan => .isTrue trivial

/-- A decoded JSON value, as produced by `json.loads` on the FX payload.
Numbers carry a `PyFloat`: the decoder parses overflowing literals such as
`1e400` to `inf`/`-inf` and accepts the non-standard `Infinity`, `-Infinity`
and `NaN` tokens, so non-finite numbers are reachable payload values. -/
inductive JVal where
  | num (x : PyFloat)
  | str (s : String)
  | bool (b : Bool)
  | null
  | arr (xs : List JVal)
  | obj (kvs : List (String × JVal))
  deriving Repr

/-- Python `dict.get(key)` on a decoded JSON object. -/
def objGet (kvs : List (String × JVal)) (key : String) : Option JVal :=
  List.lookup key kvs

/-- Python `float(raw)` applied to a decoded JSON value, `none` when it raises.
`float` of a JSON number is that number (including non-finite ones);
`float(True/False)` gives 1.0/0.0; `float` of a string defers to `str_float`,
an oracle modelling the C `strtod`-based string parser (which can itself
produce non-finite values, e.g. `float("inf")` or `float("1e400")`, or raise —
`none`); `float` of `None`/lists/dicts raises `TypeError`. -/
def pyFloat? (str_float : String → Option PyFloat) : JVal → Option PyFloat
  | .num x => some x
  | .bool b => some (.finite (if b then 1 else 0))
  | .str s => str_float s
  | _ => none

/-- Python `isinstance(x, dict)` on a decoded JSON value. -/
def JVal.isObj : JVal → Bool
  | .obj _ => true
  | _ => false

/-- The process-wide currency table as the refresh routine writes it: after a
refresh its entries are whatever floats the arithmetic produced, so the fields
are `PyFloat`, not plain rationals. -/
structure FloatRateTable where
  gbp : PyFloat
  eur : PyFloat
  usd : PyFloat
  jpy : PyFloat
  deriving Repr, DecidableEq

/-- The static default table, seen as floats (all entries finite). -/
def defaultFloatRates : FloatRateTable :=
  { gbp := .finite 1, eur := .finite (86/100), usd := .finite (79/100),
    jpy := .finite (53/10000) }

/-- One iteration of the `for symbol in symbols` loop body of
`refresh_currency_rates`: the value written into `updated[symbol]`.
`cur` is `_CURRENCY_TO_GBP.get(symbol, _DEFAULT_CURRENCY_TO_GBP[symbol])`,
which is the current table entry since the key is always present.  Note the
guard is exactly Python's `as_float <= 0`: `inf` and `nan` pass it, after
which `1.0 / as_float` (0.0 resp. nan) is committed. -/
def updated_rate (str_float : String → Option PyFloat)
    (rkvs : List (String × JVal)) (cur : PyFloat) (sym : String) : PyFloat :=
  match objGet rkvs sym with
  | none => cur
  | some raw =>
    match pyFloat? str_float raw with
    | none => cur
    | some f => if f.le0 then cur else f.recip

/-- `refresh_currency_rates(force)` of `sources/common.py`.

Explicit inputs stand for the ambient state and I/O of the Python function:
`str_float` is the string-to-float parser (external C routine, an oracle);
`enabled` is the truthiness of `ENABLE_LIVE_FX_RATES` (default true); `ttl_raw`
is `int(os.getenv("FX_REFRESH_SECONDS", "21600").strip())`, `none` when that
raises `ValueError`; `now_ts`/`last_ts` are `time.time()` and
`_FX_LAST_REFRESH_TS`; `fetched` is the result of the `urlopen` + `json.loads`
block, `.error` when any exception was raised there (network failure or
undecodable body).  The result is the returned bool paired with the table
after the call (`_FX_LAST_REFRESH_TS` is additionally set to `now_ts` exactly
when the bool is true; the timestamp is not needed by any claim). -/
def refresh_currency_rates (str_float : String → Option PyFloat)
    (enabled force : Bool) (ttl_raw : Option ℤ)
    (now_ts last_ts : ℚ) (table : FloatRateTable) (fetched : Except Unit JVal) :
    Bool × FloatRateTable :=
  if enabled = false then (false, table)
  else
    let ttl : ℤ := max 300 (ttl_raw.getD 21600)
    if force = false ∧ last_ts ≠ 0 ∧ now_ts - last_ts < (ttl : ℚ) then (false, table)
    else
      match fetched with
      | .error _ => (false, table)
      | .ok payload =>
        let rates : JVal :=
          match payload with
          | .obj kvs => (objGet kvs "rates").getD (.obj [])
          | _ => .obj []
        match rates with
        | .obj rkvs =>
          (true,
            { gbp := .finite 1
              eur := updated_rate str_float rkvs table.eur "EUR"
              usd := updated_rate str_float rkvs table.usd "USD"
              jpy := updated_rate str_float rkvs table.jpy "JPY" })
        | _ => (false, table)

/-- The table invariant of the spec's data model: the home currency maps to
exactly 1.0 and every stored rate is strictly positive (Python `x > 0`). -/
def rate_table_invariant (t : FloatRateTable) : Prop :=
  t.gbp = .finite 1 ∧ t.eur.isPos ∧ t.usd.isPos ∧ t.jpy.isPos

/-- The weaker invariant the refresh does maintain unconditionally: GBP is
exactly 1.0 and no stored rate is negative (`0.0` and NaN entries allowed). -/
def rate_table_never_negative (t : FloatRateTable) : Prop :=
  t.gbp = .finite 1 ∧ t.eur.notNeg ∧ t.usd.notNeg ∧ t.jpy.notNeg

instance : DecidablePred rate_table_invariant := fun t => by
  unfold rate_table_invariant; infer_instance

/-- All rate values of the response that `float()` accepts convert to finite
floats — the proviso under which the refresh preserves strict positivity. -/
def response_rates_finite (str_float : String → Option PyFloat)
    (fetched : Except Unit JVal) : Prop :=
  ∀ kvs rkvs, fetched = Except.ok (JVal.obj kvs) →
    objGet kvs "rates" = some (JVal.obj rkvs) →
    ∀ sym v f, objGet rkvs sym = some v → pyFloat? str_float v = some f →
      f.isFinite = true

/-! #### 1.2 Data model (`models.py`, as used by the adapters and `tools.py`) -/

/-- Candidate item record as the adapters construct it and `tools.py` consumes
it: the six fields of `models.CandidateItem` plus the `source_id`,
`fetched_at_utc` and `data_origin` fields that `append_candidate_from_row`
passes and the test-suite reads.  (The `models.py` file as shipped omits the
last three fields; see `models_CandidateItem_fields` below and claim C1.) -/
structure CandidateItem where
  site_name : String
  title : String
  url : String
  source_price_gbp : ℚ
  shipping_to_uk_gbp : ℚ
  condition : String
  source_id : String
  fetched_at_utc : String
  data_origin : String
  deriving Repr, DecidableEq

/-- The field list of the `CandidateItem` dataclass exactly as declared in
`models.py` (a `slots=True` dataclass accepts precisely these keywords). -/
def models_CandidateItem_fields : List String :=
  ["site_name", "title", "url", "source_price_gbp", "shipping_to_uk_gbp", "condition"]

/-- The keyword arguments that `append_candidate_from_row` in
`sources/trading_cards.py` passes to the `CandidateItem(...)` constructor. -/
def append_candidate_from_row_kwargs : List String :=
  ["site_name", "title", "url", "source_price_gbp", "shipping_to_uk_gbp", "condition",
   "source_id", "fetched_at_utc", "data_origin"]

/-- Whether a Python `slots=True` dataclass call with the given keyword
arguments is accepted: every keyword must name a declared field (an unknown
keyword raises `TypeError`). -/
def dataclass_accepts_kwargs (fields kwargs : List String) : Bool :=
  kwargs.all (fun k => fields.contains k)

/-! #### 1.3 String helpers for URL normalisation

Lean's built-in `String.trim`/`String.toLower` are not kernel-reducible, so the
Python `str.strip()`/`str.lower()` used on URLs are modelled directly on the
character list (ASCII case folding; URLs in this code base are ASCII). -/

/-- Python `str.strip()` — drop leading and trailing whitespace. -/
def pyStrip (s : String) : String :=
  ⟨((s.toList.dropWhile Char.isWhitespace).reverse.dropWhile Char.isWhitespace).reverse⟩

/-- Python `str.lower()` (ASCII case folding). -/
def pyLower (s : String) : String :=
  ⟨s.toList.map Char.toLower⟩

/-- Python `str.upper()` (ASCII case folding). -/
def pyUpper (s : String) : String :=
  ⟨s.toList.map Char.toUpper⟩

/-- The dedup key of `_dedupe_items_by_url`: `item.url.strip().lower()`. -/
def dedupe_key (item : CandidateItem) : String :=
  pyLower (pyStrip item.url)

/-! #### 1.4 Aggregator / diagnostics (`tools.py`) -/

/-- `_resolve_source_status`: collapse the five counters into one status with
strict precedence live > blocked > fetch_error > parse_failed > fallback >
no_data. -/
def _resolve_source_status (live_count fallback_count blocked_count
    parse_miss_count error_count : ℕ) : String :=
  if live_count > 0 then "live"
  else if blocked_count > 0 then "blocked"
  else if error_count > 0 then "fetch_error"
  else if parse_miss_count > 0 then "parse_failed"
  else if fallback_count > 0 then "fallback"
  else "no_data"

/-- Loop body of `_dedupe_items_by_url`: `seen` is the set of keys already
retained (a Python `set`, modelled as a list with membership). -/
def dedupeGo : List CandidateItem → List String → List CandidateItem
  | [], _ => []
  | item :: rest, seen =>
    let key := dedupe_key item
    if key = "" ∨ key ∈ seen then dedupeGo rest seen
    else item :: dedupeGo rest (key :: seen)

/-- `_dedupe_items_by_url`: deduplicate candidate items by normalised URL while
preserving order (items whose normalised URL is empty are skipped). -/
def _dedupe_items_by_url (items : List CandidateItem) : List CandidateItem :=
  dedupeGo items []

/-- The `last_fetch_meta` counters read by `find_candidate_items`
(`meta.get("blocked"/"parse_misses"/"fetch_errors", 0)`). -/
structure FetchMeta where
  blocked : ℕ
  parse_misses : ℕ
  fetch_errors : ℕ
  deriving Repr, DecidableEq

/-- Per-source diagnostics record written by `_record_source_diagnostics`. -/
structure SourceDiag where
  source_name : String
  status : String
  live_count : ℕ
  fallback_count : ℕ
  blocked_count : ℕ
  parse_miss_count : ℕ
  error_count : ℕ
  deriving Repr, DecidableEq

/-- A source adapter as `find_candidate_items` sees it: the
`strict_live_required` flag of its descriptor, the outcome of its
`fetch_candidates` call (`.error` when the adapter raised), and the
`last_fetch_meta` it exposes afterwards. -/
structure AdapterModel where
  strict_live_required : Bool
  fetch_result : Except Unit (List CandidateItem)
  last_fetch_meta : FetchMeta

/-- `find_candidate_items(marketplace)` of `tools.py`.

`adapter` is the result of `_get_adapter_for_marketplace` (`none` for an
unknown marketplace); `strict_live` is `SOURCE_RUNTIME.strict_live`;
`run_shuffle` stands for the in-place `_build_run_rng(name).shuffle` (a
permutation of the deduplicated list).  The returned value pairs the item list
with the diagnostics record written into `LAST_SOURCE_DIAGNOSTICS` (none when
no record is written; in the strict-live raising branch the record has already
been written before the raise, and the call's outcome is the `.error`). -/
def find_candidate_items (strict_live : Bool) (source_name : String)
    (adapter : Option AdapterModel)
    (run_shuffle : List CandidateItem → List CandidateItem) :
    Except String (List CandidateItem × Option SourceDiag) :=
  match adapter with
  | none => .ok ([], none)
  | some a =>
    match a.fetch_result with
    | .error _ =>
      .ok ([], some ⟨source_name, "fetch_error", 0, 0, 0, 0, 1⟩)
    | .ok raw_items =>
      let deduped := run_shuffle (_dedupe_items_by_url raw_items)
      let live_count := deduped.countP (fun x => x.data_origin == "live")
      let fallback_count := deduped.countP (fun x => x.data_origin == "fallback")
      let m := a.last_fetch_meta
      let status := _resolve_source_status live_count fallback_count
        m.blocked m.parse_misses m.fetch_errors
      let diag : SourceDiag :=
        ⟨source_name, status, live_count, fallback_count,
          m.blocked, m.parse_misses, m.fetch_errors⟩
      if strict_live = true ∧ a.strict_live_required = true ∧ live_count = 0 then
        .error ("Strict live mode: source returned zero live candidates, status " ++ status)
      else
        .ok (deduped, some diag)

/-- Whether a `find_candidate_items` call raised (its Python counterpart threw
a `RuntimeError`). -/
def exceptRaises : Except String (List CandidateItem × Option SourceDiag) → Bool
  | .error _ => true
  | .ok _ => false

/-! #### 1.5 Profitability benchmarker (`tools.py`) -/

/-- Rounding to 2 decimal places, `round(x, 2)`.  (Python rounds ties to even;
no value in any theorem below sits on a tie, where the two conventions could
differ.) -/
def round2 (q : ℚ) : ℚ :=
  (round (q * 100) : ℤ) / 100

/-- `statistics.median`: middle element of the sorted list, or the mean of the
two middle elements for an even count. -/
def pyMedian (l : List ℚ) : ℚ :=
  let sorted := l.mergeSort (fun a b => a ≤ b)
  let n := l.length
  if n % 2 = 1 then sorted.getD (n / 2) 0
  else (sorted.getD (n / 2 - 1) 0 + sorted.getD (n / 2) 0) / 2

/-- eBay UK private-seller fee configuration (`tools.py` module constants). -/
def EBAY_FINAL_VALUE_FEE_RATE : ℚ := 0

/-- Per-order fee, zero under the no-fee private-seller tier. -/
def EBAY_PER_ORDER_FEE_GBP : ℚ := 0

/-- Result record of `assess_profitability_against_ebay`. -/
structure ProfitabilityAssessment where
  item_title : String
  item_url : String
  total_landed_cost_gbp : ℚ
  ebay_median_sale_price_gbp : ℚ
  estimated_fees_gbp : ℚ
  estimated_profit_gbp : ℚ
  estimated_margin_percent : ℚ
  confidence : String
  deriving Repr, DecidableEq

/-- `assess_profitability_against_ebay(item)`.  `sold_prices` is the value
returned by `_safe_fetch_ebay_price_snapshots(item.title)` (an input here,
since that call is network I/O). -/
def assess_profitability_against_ebay (sold_prices : List ℚ)
    (item : CandidateItem) : ProfitabilityAssessment :=
  let benchmark :=
    if sold_prices ≠ [] then pyMedian sold_prices else item.source_price_gbp * (135/100)
  let landed_cost := item.source_price_gbp + item.shipping_to_uk_gbp
  let fees := benchmark * EBAY_FINAL_VALUE_FEE_RATE + EBAY_PER_ORDER_FEE_GBP
  let profit := benchmark - landed_cost - fees
  let margin := if landed_cost = 0 then 0 else profit / landed_cost * 100
  let confidence :=
    if sold_prices ≠ [] ∧ 8 ≤ sold_prices.length then "high"
    else if sold_prices ≠ [] then "medium"
    else "low"
  { item_title := item.title
    item_url := item.url
    total_landed_cost_gbp := round2 landed_cost
    ebay_median_sale_price_gbp := round2 benchmark
    estimated_fees_gbp := round2 fees
    estimated_profit_gbp := round2 profit
    estimated_margin_percent := round2 margin
    confidence := confidence }

/-! #### 1.6 Sitemap crawler (`sources/common.py`) -/

/-- Python `s.endswith(suffix)`. -/
def pyEndsWith (s suffix : String) : Bool :=
  decide (List.IsSuffix suffix.toList s.toList)

/-- Case-insensitive substring containment, `needle.lower() in hay.lower()`. -/
def containsCI (hay needle : String) : Bool :=
  decide (List.IsInfix (pyLower needle).toList (pyLower hay).toList)

/-- Python `s.rstrip("/")`. -/
def rstripSlashes (s : String) : String :=
  ⟨(s.toList.reverse.dropWhile (fun c => c = '/')).reverse⟩

/-- Loop state of `fetch_sitemap_product_urls`.  Python sets are modelled as
lists with membership; `trace` additionally records, in order, every sitemap
document for which `fetch_page` was invoked (instrumentation of the fetch
side effect — it is not part of the Python state). -/
structure CrawlState where
  queue : List String
  seen_sitemaps : List String
  urls : List String
  seen_urls : List String
  trace : List String
  deriving Repr, DecidableEq

/-- Inner `for loc in extract_sitemap_locs(xml)` loop of
`fetch_sitemap_product_urls`, including the `break` once `limit` is reached. -/
def processLocs (url_hints url_excludes : List String) (limit : ℕ) :
    CrawlState → List String → CrawlState
  | st, [] => st
  | st, loc :: rest =>
    if pyEndsWith loc ".xml" then
      processLocs url_hints url_excludes limit
        (if loc ∈ st.seen_sitemaps then st
         else { st with queue := st.queue ++ [loc] }) rest
    else if url_hints ≠ [] ∧ ¬ url_hints.any (fun h => containsCI loc h) then
      processLocs url_hints url_excludes limit st rest
    else if url_excludes ≠ [] ∧ url_excludes.any (fun h => containsCI loc h) then
      processLocs url_hints url_excludes limit st rest
    else if loc ∈ st.seen_urls then
      processLocs url_hints url_excludes limit st rest
    else
      if limit ≤ (st.urls ++ [loc]).length then
        { st with seen_urls := st.seen_urls ++ [loc], urls := st.urls ++ [loc] }
      else
        processLocs url_hints url_excludes limit
          { st with seen_urls := st.seen_urls ++ [loc], urls := st.urls ++ [loc] } rest

/-- Body of the `for sm in current_batch` loop: skip already-seen sitemaps,
fetch (`web` maps a sitemap URL to its extracted `<loc>` list, `none` when
`fetch_page` raised — that document is skipped), then scan its locations. -/
def processSitemap (web : String → Option (List String))
    (url_hints url_excludes : List String) (limit : ℕ)
    (st : CrawlState) (sm : String) : CrawlState :=
  if sm ∈ st.seen_sitemaps then st
  else
    match web sm with
    | none =>
      { st with seen_sitemaps := st.seen_sitemaps ++ [sm], trace := st.trace ++ [sm] }
    | some locs =>
      processLocs url_hints url_excludes limit
        { st with seen_sitemaps := st.seen_sitemaps ++ [sm], trace := st.trace ++ [sm] }
        locs

/-- One iteration of the `while` loop (one breadth level): snapshot the queue,
clear it, and process every sitemap of the snapshot. -/
def crawlLevel (web : String → Option (List String))
    (url_hints url_excludes : List String) (limit : ℕ)
    (st : CrawlState) : CrawlState :=
  (st.queue).foldl (processSitemap web url_hints url_excludes limit)
    { st with queue := [] }

/-- The `while queue and len(urls) < limit and depth < 3` loop: `depth` starts
at 0 and is incremented each iteration, so at most 3 levels run (`fuel` = 3). -/
def crawlLoop (web : String → Option (List String))
    (url_hints url_excludes : List String) (limit : ℕ) :
    ℕ → CrawlState → CrawlState
  | 0, st => st
  | fuel + 1, st =>
    if st.queue = [] ∨ limit ≤ st.urls.length then st
    else crawlLoop web url_hints url_excludes limit fuel
      (crawlLevel web url_hints url_excludes limit st)

/-- `fetch_sitemap_product_urls(home_url, url_hints, url_excludes, limit)`.
The Python function returns the `urls` component; the full final state is kept
so that the fetch trace is observable. -/
def fetch_sitemap_product_urls (web : String → Option (List String))
    (home_url : String) (url_hints url_excludes : List String)
    (limit : ℕ) : CrawlState :=
  crawlLoop web url_hints url_excludes limit 3
    { queue := [rstripSlashes home_url ++ "/sitemap.xml"],
      seen_sitemaps := [], urls := [], seen_urls := [], trace := [] }

/-- The `.xml` locations of the given sitemap documents — the pool from which
the next breadth level's queue is drawn. -/
def xmlLocsOf (web : String → Option (List String)) (docs : List String) :
    List String :=
  docs.flatMap (fun d => ((web d).getD []).filter (fun l => pyEndsWith l ".xml"))

/-- No sitemap document is fetched twice: the fetch trace has no duplicates,
and every fetched document is in the seen-set. -/
def crawl_trace_inv (st : CrawlState) : Prop :=
  st.trace.Nodup ∧ ∀ x ∈ st.trace, x ∈ st.seen_sitemaps

/-- The collected-URL bound: at most `limit - 1` plus one URL per fetched
sitemap document (each document fetched after the limit was reached can
contribute at most one more URL before its inner loop breaks). -/
def crawl_len_inv (limit : ℕ) (st : CrawlState) : Prop :=
  st.urls.length ≤ (limit - 1) + st.trace.length

/-- Breadth-level structure of a fetch trace: each level's documents are drawn
from the given pool, and the next level's pool is the `.xml` locations found
in this level's documents. -/
def trace_levels_chain (web : String → Option (List String)) :
    List String → List (List String) → Prop
  | _, [] => True
  | pool, t :: rest => (∀ x ∈ t, x ∈ pool) ∧ trace_levels_chain web (xmlLocsOf web t) rest

/-- A concrete three-document sitemap graph: the root index references two
child sitemaps, each child carries one product URL.  Used to exhibit the
limit overshoot of the crawl. -/
def sitemap_web_example : String → Option (List String) := fun u =>
  if u = "https://shop.example/sitemap.xml" then
    some ["https://shop.example/a.xml", "https://shop.example/b.xml"]
  else if u = "https://shop.example/a.xml" then some ["https://shop.example/p1"]
  else if u = "https://shop.example/b.xml" then some ["https://shop.example/p2"]
  else none

/-! #### 1.7 Heuristic HTML extractor (`sources/common.py`) -/

/-- Digit run to a natural number. -/
def digitsToNat (ds : List Char) : ℕ :=
  ds.foldl (fun acc c => acc * 10 + (c.toNat - '0'.toNat)) 0

/-- `extract_number(raw)`: first match of `(\d[\d,]*\.?\d*)`, thousands
separators removed, parsed as a (non-negative) decimal; `none` when no digit
occurs.  (The float conversion of a matched run never raises.) -/
def extract_number (raw : String) : Option ℚ :=
  match raw.toList.dropWhile (fun c => ¬ c.isDigit) with
  | [] => none
  | c :: rest =>
    let run := (c :: rest).takeWhile (fun ch => ch.isDigit ∨ ch = ',')
    let after := (c :: rest).drop run.length
    let frac :=
      match after with
      | '.' :: more => more.takeWhile Char.isDigit
      | _ => []
    let intDigits := run.filter Char.isDigit
    some ((digitsToNat intDigits : ℚ) + (digitsToNat frac : ℚ) / 10 ^ frac.length)

/-- `currency_to_gbp(amount, currency)`: pass-through when the currency is
absent/empty or unknown to the table, otherwise multiply by the rate. -/
def currency_to_gbp (table : RateTable) (amount : ℚ) (currency : Option String) : ℚ :=
  match currency with
  | none => amount
  | some c =>
    if c = "" then amount
    else
      match table.get (pyUpper c) with
      | none => amount
      | some rate => amount * rate

/-- The symbol → currency-code map of `extract_products_from_html`
(`{"£": "GBP", "€": "EUR", "$": "USD", "¥": "JPY", "円": "JPY", "&YEN;": "JPY"}`,
defaulting to the symbol itself). -/
def map_symbol (s : String) : String :=
  if s = "£" then "GBP"
  else if s = "€" then "EUR"
  else if s = "$" then "USD"
  else if s = "¥" then "JPY"
  else if s = "円" then "JPY"
  else if s = "&YEN;" then "JPY"
  else s

/-- One anchor-tag match of the `<a[^>]+href="([^"]+)"[^>]*>(.*?)</a>` scan of
`extract_products_from_html`, pre-processed by the regex engine (an external
library, modelled as input): `href` is the captured attribute, `title` is
`normalize_text(re.sub(r"<[^>]+>", " ", inner))`, and `groups` is the result
of the price-pattern search over the surrounding window — `none` when no price
matched, otherwise the four capture groups (symbol-first alternative in groups
1–2, amount-first alternative in groups 3–4). -/
structure AnchorMatch where
  href : String
  title : String
  groups : Option (Option String × Option String × Option String × Option String)

/-- A row produced by the extractor (`{"title": ..., "url": ...,
"source_price_gbp": ...}`). -/
structure ProductRow where
  title : String
  url : String
  source_price_gbp : ℚ
  deriving Repr, DecidableEq

/-- Anchor loop of `extract_products_from_html`, accumulating `candidates` and
breaking at 30 rows.  `urljoin_fn` models `urljoin(base_url, unescape(href))`
(both from external libraries). -/
def extract_html_go (table : RateTable) (urljoin_fn : String → String → String)
    (base_url : String) : List AnchorMatch → List ProductRow → List ProductRow
  | [], acc => acc
  | m :: rest, acc =>
    if m.title.length < 8 then extract_html_go table urljoin_fn base_url rest acc
    else
      match m.groups with
      | none => extract_html_go table urljoin_fn base_url rest acc
      | some (g1, g2, g3, g4) =>
        let symbol_amount :=
          if (g1.getD "") ≠ "" ∧ (g2.getD "") ≠ "" then (pyUpper (g1.getD ""), g2.getD "")
          else (pyUpper (g4.getD ""), g3.getD "")
        let currency := map_symbol symbol_amount.1
        match extract_number symbol_amount.2 with
        | none => extract_html_go table urljoin_fn base_url rest acc
        | some amount =>
          let price_gbp := round2 (currency_to_gbp table amount (some currency))
          if ¬ (5 ≤ price_gbp ∧ price_gbp ≤ 3000) then
            extract_html_go table urljoin_fn base_url rest acc
          else
            let acc2 := acc ++ [⟨m.title, urljoin_fn base_url m.href, price_gbp⟩]
            if 30 ≤ acc2.length then acc2
            else extract_html_go table urljoin_fn base_url rest acc2

/-- `extract_products_from_html(content, base_url)`, with the anchor scan of
`content` (regex) supplied as the pre-parsed `anchors` input. -/
def extract_products_from_html (table : RateTable)
    (urljoin_fn : String → String → String) (base_url : String)
    (anchors : List AnchorMatch) : List ProductRow :=
  extract_html_go table urljoin_fn base_url anchors []

/-! #### 1.8 Order-diversity shuffle (`sources/common.py`) -/

/-- `x[i], x[j] = x[j], x[i]` on a list; out-of-range indices leave the list
unchanged (never hit by `random.shuffle`). -/
def listSwap (l : List α) (i j : ℕ) : List α :=
  match l.get? i, l.get? j with
  | some a, some b => (l.set i b).set j a
  | _, _ => l

/-- The loop of `random.Random.shuffle`: `for i in reversed(range(1, len(x)))`
swap `x[i]` with `x[j]`, `j = _randbelow(i+1)`.  `stream k` is the k-th draw of
the seeded generator; `_randbelow(i+1)` always lies in `[0, i]`, modelled as
`stream k % (i+1)`.  The first argument is the current index `i`, counted
down structurally; `k` counts the draws. -/
def shuffleSteps (stream : ℕ → ℕ) : ℕ → ℕ → List α → List α
  | 0, _, l => l
  | i + 1, k, l =>
    shuffleSteps stream i (k + 1) (listSwap l (i + 1) (stream k % (i + 2)))

/-- `rng.shuffle(x)` for a seeded `random.Random`: Fisher–Yates driven by the
generator's deterministic draw stream. -/
def pyShuffle (stream : ℕ → ℕ) (l : List α) : List α :=
  shuffleSteps stream (l.length - 1) 0 l

/-- `shuffle_for_source(items, source_key=..., purpose=...)`.

`seed_env` is `os.getenv("SOURCE_RANDOM_SEED", "")`; `hash16` models
`int(sha256(arg).hexdigest()[:16], 16)` (a fixed deterministic function);
`seeded_stream n` models the draw stream of `random.Random(n)` (a fixed
deterministic function of the seed integer); `sys_shuffle` models
`random.SystemRandom().shuffle` — OS randomness, differing from call to
call, hence a parameter. -/
def shuffle_for_source (seed_env : String) (hash16 : String → ℕ)
    (seeded_stream : ℕ → ℕ → ℕ) (sys_shuffle : List α → List α)
    (items : List α) (source_key purpose : String) : List α :=
  if items.length < 2 then items
  else
    if pyStrip seed_env ≠ "" then
      pyShuffle (seeded_stream (hash16
        (pyStrip seed_env ++ ":" ++ source_key ++ ":" ++ purpose))) items
    else sys_shuffle items

/-! ### 2. Theorems -/

/-! #### Claim C1 -/

/-- Claim C1 (code bug): the spec requires every returned `CandidateItem` to
carry a `dataOrigin ∈ {live, fallback}` tag, and the adapters do pass
`data_origin="live"` (search/sitemap passes) or `"fallback"` (fallback pass)
into `append_candidate_from_row` — but the `CandidateItem` dataclass declared
in `models.py` has no `data_origin` (nor `source_id`/`fetched_at_utc`) field,
so the keyword construction in `append_candidate_from_row` is rejected
(`TypeError`) and no item tagged with a data origin can ever be produced.
The repository's own tests assert `item.data_origin == "live"`, confirming the
field list in `models.py` is the slip. -/
theorem claim_c1_models_rejects_data_origin :
    dataclass_accepts_kwargs models_CandidateItem_fields append_candidate_from_row_kwargs
        = false ∧
    "data_origin" ∈ append_candidate_from_row_kwargs ∧
    "data_origin" ∉ models_CandidateItem_fields := by
  decide

/-! #### Claim C2 -/

/-- Claim C2: status resolution is a pure function of the five counters with
the strict precedence live > blocked > fetch_error > parse_failed > fallback >
no_data; in particular (live=0, blocked=1, fetchErrors=1, parseMisses=0,
fallback=0) resolves to "blocked".  (Argument order as in the source:
live, fallback, blocked, parse misses, errors.) -/
theorem claim_c2_resolve_status (l f b p e : ℕ) :
    (_resolve_source_status l f b p e = "live" ↔ 0 < l) ∧
    (l = 0 → (_resolve_source_status l f b p e = "blocked" ↔ 0 < b)) ∧
    (l = 0 → b = 0 → (_resolve_source_status l f b p e = "fetch_error" ↔ 0 < e)) ∧
    (l = 0 → b = 0 → e = 0 → (_resolve_source_status l f b p e = "parse_failed" ↔ 0 < p)) ∧
    (l = 0 → b = 0 → e = 0 → p = 0 →
      (_resolve_source_status l f b p e = "fallback" ↔ 0 < f)) ∧
    (l = 0 → b = 0 → e = 0 → p = 0 → f = 0 →
      _resolve_source_status l f b p e = "no_data") ∧
    _resolve_source_status 0 0 1 0 1 = "blocked" := by
  refine ⟨?_, ?_, ?_, ?_, ?_, ?_, by decide⟩ <;>
    cases l <;> cases b <;> cases e <;> cases p <;> cases f <;>
      simp [_resolve_source_status]

/-- Witness for C2 at the spec's example counters. -/
theorem claim_c2_resolve_status_witness :
    _resolve_source_status 0 0 1 0 1 = "blocked" ∧ 0 < 1 :=
  ⟨((claim_c2_resolve_status 0 0 1 0 1).2.1 rfl).mpr (by decide), by decide⟩

/-! #### Claim C3 -/

/-- Claim C3 counterexample: a payload whose EUR rate is non-positive is one of
the claim's failure cases, so the claim predicts the call reports no refresh
(returns false) — but the code only falls back for that one symbol, still
commits the update, and returns true (table values here happen to all be kept,
yet the call reports a refresh). -/
theorem claim_c3_counterexample :
    refresh_currency_rates (fun _ => none) true true none 0 0 defaultFloatRates
        (Except.ok (JVal.obj [("rates", JVal.obj [("EUR", JVal.num (.finite (-1)))])]))
      = (true, defaultFloatRates) := by
  rfl

/-- Claim C3 as amended: a network error or undecodable body, and a payload
whose `rates` field is present but not a mapping, leave the table unchanged
and report no refresh; a rate value whose float conversion compares `<= 0`
(a non-positive finite value or `-inf`) does not fail the refresh — that
symbol's entry keeps its previous value, but the call still commits the
remaining updates and reports a refresh (returns true).  Stated for every
string-to-float oracle. -/
theorem claim_c3_refresh_failure_handling :
    (∀ (sf : String → Option PyFloat) (enabled force : Bool) (ttl : Option ℤ)
        (now last : ℚ) (t : FloatRateTable) (e : Unit),
      refresh_currency_rates sf enabled force ttl now last t (.error e) = (false, t)) ∧
    (∀ (sf : String → Option PyFloat) (ttl : Option ℤ) (now last : ℚ)
        (t : FloatRateTable) (kvs : List (String × JVal)) (v : JVal),
      objGet kvs "rates" = some v → v.isObj = false →
      refresh_currency_rates sf true true ttl now last t (.ok (.obj kvs)) = (false, t)) ∧
    (∀ (sf : String → Option PyFloat) (ttl : Option ℤ) (now last : ℚ)
        (t : FloatRateTable) (rkvs : List (String × JVal)) (v : JVal) (f : PyFloat),
      pyFloat? sf v = some f → f.le0 = true →
      (refresh_currency_rates sf true true ttl now last t
          (.ok (.obj [("rates", .obj rkvs)]))).1 = true ∧
      (objGet rkvs "EUR" = some v →
        (refresh_currency_rates sf true true ttl now last t
            (.ok (.obj [("rates", .obj rkvs)]))).2.eur = t.eur) ∧
      (objGet rkvs "USD" = some v →
        (refresh_currency_rates sf true true ttl now last t
            (.ok (.obj [("rates", .obj rkvs)]))).2.usd = t.usd) ∧
      (objGet rkvs "JPY" = some v →
        (refresh_currency_rates sf true true ttl now last t
            (.ok (.obj [("rates", .obj rkvs)]))).2.jpy = t.jpy)) := by
  refine ⟨?_, ?_, ?_⟩
  · intro sf enabled force ttl now last t e
    cases enabled
    · rfl
    · unfold refresh_currency_rates
      dsimp only
      split_ifs <;> rfl
  · intro sf ttl now last t kvs v hv hobj
    cases v <;> simp_all [refresh_currency_rates, JVal.isObj, objGet]
  · intro sf ttl now last t rkvs v f hq hle
    have hrates : objGet [("rates", JVal.obj rkvs)] "rates" = some (JVal.obj rkvs) := by
      simp [objGet]
    refine ⟨by simp [refresh_currency_rates, hrates], ?_, ?_, ?_⟩ <;>
      · intro hsym
        simp [refresh_currency_rates, hrates, updated_rate, hsym, hq, hle]

/-- Witness for C3's amended behavior at concrete inputs. -/
theorem claim_c3_refresh_failure_handling_witness :
    refresh_currency_rates (fun _ => none) true true none 0 0 defaultFloatRates
        (.error ()) = (false, defaultFloatRates) ∧
    refresh_currency_rates (fun _ => none) true true none 0 0 defaultFloatRates
        (.ok (.obj [("rates", .num (.finite 5))])) = (false, defaultFloatRates) ∧
    (refresh_currency_rates (fun _ => none) true true none 0 0 defaultFloatRates
        (.ok (.obj [("rates", .obj [("USD", .num (.finite 0))])]))).2.usd
      = defaultFloatRates.usd :=
  ⟨claim_c3_refresh_failure_handling.1 (fun _ => none) true true none 0 0 _ (),
   claim_c3_refresh_failure_handling.2.1 (fun _ => none) none 0 0 _ _
      (.num (.finite 5)) rfl rfl,
   (claim_c3_refresh_failure_handling.2.2 (fun _ => none) none 0 0 _
      [("USD", JVal.num (.finite 0))] (.num (.finite 0)) (.finite 0) rfl
      (by simp [PyFloat.le0])).2.2.1 rfl⟩

/-! #### Claim C10 -/

/-- A strictly positive float is not negative. -/
theorem pyPos_notNeg (x : PyFloat) (h : x.isPos) : x.notNeg := by
  cases x with
  | finite q => exact le_of_lt h
  | inf => trivial
  | ninf => exact h.elim
  | nan => trivial

/-- One symbol update never produces a negative entry when the current entry
is strictly positive — but it can produce `0.0` (from an `inf` rate) or NaN. -/
theorem updated_rate_notNeg (sf : String → Option PyFloat)
    (rkvs : List (String × JVal)) (cur : PyFloat) (sym : String)
    (h : cur.isPos) : (updated_rate sf rkvs cur sym).notNeg := by
  unfold updated_rate
  cases hobj : objGet rkvs sym with
  | none => exact pyPos_notNeg cur h
  | some raw =>
    cases hf : pyFloat? sf raw with
    | none => simp only [hf]; exact pyPos_notNeg cur h
    | some f =>
      simp only [hf]
      by_cases hle : f.le0 = true
      · rw [if_pos hle]; exact pyPos_notNeg cur h
      · rw [if_neg hle]
        cases f with
        | finite q =>
          have hq : ¬ q ≤ 0 := by simpa [PyFloat.le0] using hle
          exact le_of_lt (one_div_pos.mpr (lt_of_not_le hq))
        | inf => exact le_refl (0 : ℚ)
        | ninf => exact absurd rfl hle
        | nan => trivial

/-- One symbol update preserves strict positivity provided every rate value it
can read off the response converts to a finite float. -/
theorem updated_rate_pos_of_finite (sf : String → Option PyFloat)
    (rkvs : List (String × JVal)) (cur : PyFloat) (sym : String)
    (h : cur.isPos)
    (hfin : ∀ v f, objGet rkvs sym = some v → pyFloat? sf v = some f →
      f.isFinite = true) :
    (updated_rate sf rkvs cur sym).isPos := by
  unfold updated_rate
  cases hobj : objGet rkvs sym with
  | none => exact h
  | some raw =>
    cases hf : pyFloat? sf raw with
    | none => simp only [hf]; exact h
    | some f =>
      simp only [hf]
      by_cases hle : f.le0 = true
      · rw [if_pos hle]; exact h
      · rw [if_neg hle]
        have hfi := hfin raw f hobj hf
        cases f with
        | finite q =>
          have hq : ¬ q ≤ 0 := by simpa [PyFloat.le0] using hle
          exact one_div_pos.mpr (lt_of_not_le hq)
        | inf => simp [PyFloat.isFinite] at hfi
        | ninf => exact absurd rfl hle
        | nan => simp [PyFloat.isFinite] at hfi

/-- Claim C10 counterexample: a response whose USD rate decodes to `+inf`
(`json.loads` yields `inf` for an overflowing literal such as `1e400` and for
the non-standard `Infinity` token) passes the `as_float <= 0` guard, and the
refresh commits `1.0/inf == 0.0` to the table and returns true — after this
call the stored USD rate is 0.0, which is not strictly positive, refuting the
claimed invariant. -/
theorem claim_c10_counterexample :
    (refresh_currency_rates (fun _ => none) true true none 0 0 defaultFloatRates
        (.ok (.obj [("rates", .obj [("USD", .num .inf)])]))).2.usd = .finite 0 ∧
    ¬ (PyFloat.finite 0).isPos ∧
    (refresh_currency_rates (fun _ => none) true true none 0 0 defaultFloatRates
        (.ok (.obj [("rates", .obj [("USD", .num .inf)])]))).1 = true := by
  refine ⟨rfl, ?_, rfl⟩
  simp [PyFloat.isPos]

/-- Claim C10 as amended: after any call the table still maps GBP to exactly
1.0 and no stored rate is negative; and every stored rate remains strictly
positive provided each rate value of the response that `float()` accepts
converts to a finite float.  Unconditional strict positivity fails: an
infinite rate passes the non-positive guard and stores `1.0/inf == 0.0`, and
a NaN rate stores NaN (see the counterexample). -/
theorem claim_c10_rate_table_invariant_amended :
    rate_table_invariant defaultFloatRates ∧
    (∀ (sf : String → Option PyFloat) (enabled force : Bool) (ttl : Option ℤ)
        (now last : ℚ) (t : FloatRateTable) (fetched : Except Unit JVal),
      rate_table_invariant t →
      rate_table_never_negative
        (refresh_currency_rates sf enabled force ttl now last t fetched).2) ∧
    (∀ (sf : String → Option PyFloat) (enabled force : Bool) (ttl : Option ℤ)
        (now last : ℚ) (t : FloatRateTable) (fetched : Except Unit JVal),
      rate_table_invariant t → response_rates_finite sf fetched →
      rate_table_invariant
        (refresh_currency_rates sf enabled force ttl now last t fetched).2) := by
  refine ⟨⟨rfl, ?_, ?_, ?_⟩, ?_, ?_⟩
  · show (0:ℚ) < 86/100; norm_num
  · show (0:ℚ) < 79/100; norm_num
  · show (0:ℚ) < 53/10000; norm_num
  · intro sf enabled force ttl now last t fetched hinv
    obtain ⟨hg, he, hu, hj⟩ := hinv
    have hnn : rate_table_never_negative t :=
      ⟨hg, pyPos_notNeg _ he, pyPos_notNeg _ hu, pyPos_notNeg _ hj⟩
    unfold refresh_currency_rates
    dsimp only
    split_ifs <;> try exact hnn
    cases fetched with
    | error e => exact hnn
    | ok payload =>
      dsimp only
      split
      · exact ⟨rfl, updated_rate_notNeg _ _ _ _ he, updated_rate_notNeg _ _ _ _ hu,
          updated_rate_notNeg _ _ _ _ hj⟩
      · exact hnn
  · intro sf enabled force ttl now last t fetched hinv hresp
    obtain ⟨hg, he, hu, hj⟩ := hinv
    unfold refresh_currency_rates
    dsimp only
    split_ifs <;> try exact ⟨hg, he, hu, hj⟩
    cases fetched with
    | error e => exact ⟨hg, he, hu, hj⟩
    | ok payload =>
      dsimp only
      cases payload with
      | num x => exact ⟨rfl, he, hu, hj⟩
      | str s => exact ⟨rfl, he, hu, hj⟩
      | bool b => exact ⟨rfl, he, hu, hj⟩
      | null => exact ⟨rfl, he, hu, hj⟩
      | arr xs => exact ⟨rfl, he, hu, hj⟩
      | obj kvs =>
        dsimp only
        cases hkg : objGet kvs "rates" with
        | none =>
          simp only [hkg, Option.getD_none]
          exact ⟨rfl, he, hu, hj⟩
        | some w =>
          simp only [hkg, Option.getD_some]
          cases w with
          | num x => exact ⟨hg, he, hu, hj⟩
          | str s => exact ⟨hg, he, hu, hj⟩
          | bool b => exact ⟨hg, he, hu, hj⟩
          | null => exact ⟨hg, he, hu, hj⟩
          | arr xs => exact ⟨hg, he, hu, hj⟩
          | obj rkvs =>
            have hfin : ∀ sym v f, objGet rkvs sym = some v →
                pyFloat? sf v = some f → f.isFinite = true :=
              fun sym v f hv hf => hresp kvs rkvs rfl hkg sym v f hv hf
            exact ⟨rfl,
              updated_rate_pos_of_finite _ _ _ _ he (fun v f hv hf => hfin "EUR" v f hv hf),
              updated_rate_pos_of_finite _ _ _ _ hu (fun v f hv hf => hfin "USD" v f hv hf),
              updated_rate_pos_of_finite _ _ _ _ hj (fun v f hv hf => hfin "JPY" v f hv hf)⟩

/-- Witness for C10's amended statement: a refresh whose JPY rate is infinite
still leaves the table non-negative with GBP at 1.0, and a refresh whose JPY
rate is a finite 190 preserves full strict positivity. -/
theorem claim_c10_rate_table_invariant_amended_witness :
    rate_table_never_negative (refresh_currency_rates (fun _ => none) true true
        none 0 0 defaultFloatRates
        (.ok (.obj [("rates", .obj [("JPY", .num .inf)])]))).2 ∧
    rate_table_invariant (refresh_currency_rates (fun _ => none) true true
        none 0 0 defaultFloatRates
        (.ok (.obj [("rates", .obj [("JPY", .num (.finite 190))])]))).2 :=
  ⟨claim_c10_rate_table_invariant_amended.2.1 (fun _ => none) true true none 0 0 _ _
      claim_c10_rate_table_invariant_amended.1,
   claim_c10_rate_table_invariant_amended.2.2 (fun _ => none) true true none 0 0 _ _
      claim_c10_rate_table_invariant_amended.1
      (by
        intro kvs rkvs hkv hrg sym v f hsym hf
        injection hkv with h1
        injection h1 with h2
        subst h2
        have hr : objGet [("rates", JVal.obj [("JPY", JVal.num (.finite 190))])] "rates"
            = some (JVal.obj [("JPY", JVal.num (.finite 190))]) := rfl
        rw [hr] at hrg
        injection hrg with h3
        injection h3 with h4
        subst h4
        by_cases hs : sym = "JPY"
        · subst hs
          have hv : objGet [("JPY", JVal.num (.finite 190))] "JPY"
              = some (JVal.num (.finite 190)) := rfl
          rw [hv] at hsym
          injection hsym with h5
          subst h5
          have : f = .finite 190 := by
            have := hf
            simp only [pyFloat?] at this
            exact (Option.some.inj this).symm
          rw [this]
          rfl
        · have hb : (sym == "JPY") = false := beq_eq_false_iff_ne.mpr hs
          simp [objGet, List.lookup, hb] at hsym)⟩

/-! #### Claim C6 -/

/-- Claim C6: with zero comparable sold prices the benchmark is
`sourcePriceHome × 1.35` and confidence is "low"; for a candidate with
`sourcePriceHome = 100` and `shippingToHome = 20` and zero comparables the
assessment is landedCost 120.00, benchmark 135.00, fees 0.00, profit 15.00 and
margin 12.50 (all already at 2-decimal precision). -/
theorem claim_c6_assess_zero_comparables (item : CandidateItem) :
    (assess_profitability_against_ebay [] item).ebay_median_sale_price_gbp
        = round2 (item.source_price_gbp * (135/100)) ∧
    (assess_profitability_against_ebay [] item).confidence = "low" ∧
    ∀ sn ti u c sid ts dor,
      (assess_profitability_against_ebay []
          ⟨sn, ti, u, 100, 20, c, sid, ts, dor⟩).total_landed_cost_gbp = 120 ∧
      (assess_profitability_against_ebay []
          ⟨sn, ti, u, 100, 20, c, sid, ts, dor⟩).ebay_median_sale_price_gbp = 135 ∧
      (assess_profitability_against_ebay []
          ⟨sn, ti, u, 100, 20, c, sid, ts, dor⟩).estimated_fees_gbp = 0 ∧
      (assess_profitability_against_ebay []
          ⟨sn, ti, u, 100, 20, c, sid, ts, dor⟩).estimated_profit_gbp = 15 ∧
      (assess_profitability_against_ebay []
          ⟨sn, ti, u, 100, 20, c, sid, ts, dor⟩).estimated_margin_percent = 25/2 := by
  refine ⟨by simp [assess_profitability_against_ebay], by simp [assess_profitability_against_ebay], ?_⟩
  intro sn ti u c sid ts dor
  refine ⟨?_, ?_, ?_, ?_, ?_⟩ <;>
    norm_num [assess_profitability_against_ebay, round2, round_eq,
      EBAY_FINAL_VALUE_FEE_RATE, EBAY_PER_ORDER_FEE_GBP]

/-! #### Claim C7 -/

/-- The deduplicated list is a sublist of the input (so first-seen order is
preserved and nothing new appears). -/
theorem dedupeGo_sublist : ∀ (xs : List CandidateItem) (seen : List String),
    (dedupeGo xs seen).Sublist xs
  | [], _ => List.Sublist.refl []
  | x :: rest, seen => by
    unfold dedupeGo
    dsimp only
    split_ifs with h
    · exact (dedupeGo_sublist rest seen).cons x
    · exact (dedupeGo_sublist rest _).cons₂ x

/-- Every retained item has a nonempty key that was not already seen. -/
theorem dedupeGo_mem_key : ∀ (xs : List CandidateItem) (seen : List String)
    (x : CandidateItem), x ∈ dedupeGo xs seen →
    dedupe_key x ≠ "" ∧ dedupe_key x ∉ seen
  | [], _, x, h => absurd h (List.not_mem_nil x)
  | y :: rest, seen, x, h => by
    unfold dedupeGo at h
    dsimp only at h
    split_ifs at h with hcond
    · exact dedupeGo_mem_key rest seen x h
    · push_neg at hcond
      rcases List.mem_cons.mp h with rfl | h2
      · exact hcond
      · have h3 := dedupeGo_mem_key rest (dedupe_key y :: seen) x h2
        exact ⟨h3.1, fun hmem => h3.2 (List.mem_cons_of_mem _ hmem)⟩

/-- The keys of the retained items are pairwise distinct. -/
theorem dedupeGo_keys_nodup : ∀ (xs : List CandidateItem) (seen : List String),
    ((dedupeGo xs seen).map dedupe_key).Nodup
  | [], _ => List.nodup_nil
  | y :: rest, seen => by
    unfold dedupeGo
    dsimp only
    split_ifs with h
    · exact dedupeGo_keys_nodup rest seen
    · simp only [List.map_cons, List.nodup_cons]
      refine ⟨?_, dedupeGo_keys_nodup rest _⟩
      intro hmem
      obtain ⟨z, hz, hkz⟩ := List.mem_map.mp hmem
      exact (dedupeGo_mem_key rest _ z hz).2 (hkz ▸ List.mem_cons_self _ _)

/-- The item retained for a key is the first input item bearing that key. -/
theorem dedupeGo_first : ∀ (xs : List CandidateItem) (seen : List String)
    (x : CandidateItem), x ∈ xs → dedupe_key x ≠ "" → dedupe_key x ∉ seen →
    ∃ y, xs.find? (fun z => dedupe_key z == dedupe_key x) = some y ∧
      y ∈ dedupeGo xs seen ∧ dedupe_key y = dedupe_key x
  | [], _, x, hx, _, _ => absurd hx (List.not_mem_nil x)
  | y :: rest, seen, x, hx, hne, hnotin => by
    by_cases hk : dedupe_key y = dedupe_key x
    · refine ⟨y, ?_, ?_, hk⟩
      · exact List.find?_cons_of_pos _ (by simp [hk])
      · unfold dedupeGo
        dsimp only
        rw [if_neg]
        · exact List.mem_cons_self _ _
        · rw [hk]
          exact not_or.mpr ⟨hne, hnotin⟩
    · have hxrest : x ∈ rest := by
        rcases List.mem_cons.mp hx with rfl | h2
        · exact absurd rfl hk
        · exact h2
      have hfind : (y :: rest).find? (fun z => dedupe_key z == dedupe_key x)
          = rest.find? (fun z => dedupe_key z == dedupe_key x) :=
        List.find?_cons_of_neg _ (by simp [hk])
      unfold dedupeGo
      dsimp only
      split_ifs with hcond
      · obtain ⟨w, h1, h2, h3⟩ := dedupeGo_first rest seen x hxrest hne hnotin
        exact ⟨w, hfind ▸ h1, h2, h3⟩
      · obtain ⟨w, h1, h2, h3⟩ := dedupeGo_first rest (dedupe_key y :: seen) x hxrest hne
          (by
            intro hmem
            rcases List.mem_cons.mp hmem with heq | hmem2
            · exact hk heq.symm
            · exact hnotin hmem2)
        exact ⟨w, hfind ▸ h1, List.mem_cons_of_mem _ h2, h3⟩

/-- Claim C7 counterexample: two candidate items with identical (lower-cased)
URLs whose normalised key is empty — the claim says the first of the pair is
retained, but `_dedupe_items_by_url` drops both. -/
theorem claim_c7_counterexample :
    pyLower ((⟨"Nin-Nin-Game", "Item A", "", 30, 12, "New", "nng", "t", "live"⟩ :
        CandidateItem).url)
      = pyLower ((⟨"Nin-Nin-Game", "Item B", "", 40, 13, "New", "nng", "t", "live"⟩ :
        CandidateItem).url) ∧
    _dedupe_items_by_url
        [⟨"Nin-Nin-Game", "Item A", "", 30, 12, "New", "nng", "t", "live"⟩,
         ⟨"Nin-Nin-Game", "Item B", "", 40, 13, "New", "nng", "t", "live"⟩] = [] := by
  decide

/-- Claim C7 as amended: `fetchCandidatesFor` deduplication keys items by
whitespace-stripped lower-cased URL; items whose stripped URL is empty are
dropped; among items sharing one (nonempty) normalised key exactly the first
in input order is retained; and retained items appear in first-seen input
order (the output is a sublist of the input with pairwise-distinct keys, and
the representative found for each key is `find?`'s first match). -/
theorem claim_c7_dedupe_amended (items : List CandidateItem) :
    (_dedupe_items_by_url items).Sublist items ∧
    (∀ x ∈ _dedupe_items_by_url items, dedupe_key x ≠ "") ∧
    ((_dedupe_items_by_url items).map dedupe_key).Nodup ∧
    ∀ x ∈ items, dedupe_key x ≠ "" →
      ∃ y, items.find? (fun z => dedupe_key z == dedupe_key x) = some y ∧
        y ∈ _dedupe_items_by_url items ∧ dedupe_key y = dedupe_key x := by
  refine ⟨dedupeGo_sublist items [], ?_, dedupeGo_keys_nodup items [], ?_⟩
  · intro x hx
    exact (dedupeGo_mem_key items [] x hx).1
  · intro x hx hne
    exact dedupeGo_first items [] x hx hne (List.not_mem_nil _)

/-- Witness for C7's amended statement on a concrete pair of items whose URLs
differ only by case and surrounding whitespace. -/
theorem claim_c7_dedupe_amended_witness :
    (_dedupe_items_by_url
        [⟨"HobbyLink Japan", "Pokemon Card A", "https://Example.com/P ", 30, 12, "New",
            "hlj", "t", "live"⟩,
         ⟨"HobbyLink Japan", "Pokemon Card B", "https://example.com/p", 40, 13, "New",
            "hlj", "t", "live"⟩]).Sublist
      [⟨"HobbyLink Japan", "Pokemon Card A", "https://Example.com/P ", 30, 12, "New",
          "hlj", "t", "live"⟩,
       ⟨"HobbyLink Japan", "Pokemon Card B", "https://example.com/p", 40, 13, "New",
          "hlj", "t", "live"⟩] ∧
    dedupe_key (⟨"HobbyLink Japan", "Pokemon Card A", "https://Example.com/P ", 30, 12,
        "New", "hlj", "t", "live"⟩ : CandidateItem) ≠ "" :=
  ⟨(claim_c7_dedupe_amended _).1,
   (claim_c7_dedupe_amended
      [⟨"HobbyLink Japan", "Pokemon Card A", "https://Example.com/P ", 30, 12, "New",
          "hlj", "t", "live"⟩,
       ⟨"HobbyLink Japan", "Pokemon Card B", "https://example.com/p", 40, 13, "New",
          "hlj", "t", "live"⟩]).2.1 _ (by decide)⟩

/-! #### Claim C5 -/

/-- Claim C5: a marketplace fetch raises if and only if the strict-live policy
is on, the adapter descriptor requires live data, and the fetch completed with
zero live-origin items (the live counter over the deduplicated results is 0);
when the adapter itself raised, the call never raises — it returns an empty
list with a `fetch_error` diagnostics record, strict mode or not. -/
theorem claim_c5_strict_live (strict_live : Bool) (source_name : String)
    (a : AdapterModel) (run_shuffle : List CandidateItem → List CandidateItem)
    (hperm : ∀ l, (run_shuffle l).Perm l) :
    (∀ items, a.fetch_result = .ok items →
      (exceptRaises (find_candidate_items strict_live source_name (some a) run_shuffle)
          = true ↔
        strict_live = true ∧ a.strict_live_required = true ∧
          (_dedupe_items_by_url items).countP (fun x => x.data_origin == "live") = 0)) ∧
    (∀ e, a.fetch_result = .error e →
      find_candidate_items strict_live source_name (some a) run_shuffle =
        .ok ([], some ⟨source_name, "fetch_error", 0, 0, 0, 0, 1⟩)) := by
  constructor
  · intro items hok
    have hcount := (hperm (_dedupe_items_by_url items)).countP_eq
      (fun x => x.data_origin == "live")
    unfold find_candidate_items
    dsimp only
    rw [hok]
    dsimp only
    split_ifs with hC
    · simp only [exceptRaises, true_iff]
      exact ⟨hC.1, hC.2.1, hcount ▸ hC.2.2⟩
    · simp only [exceptRaises, Bool.false_eq_true, false_iff]
      intro hR
      exact hC ⟨hR.1, hR.2.1, hcount.trans hR.2.2⟩
  · intro e herr
    unfold find_candidate_items
    dsimp only
    rw [herr]

/-- Witness for C5: strict mode on, descriptor requires live data, and the
only fetched item is fallback-origin — the call raises. -/
theorem claim_c5_strict_live_witness :
    exceptRaises (find_candidate_items true "Nin-Nin-Game"
        (some ⟨true,
          .ok [⟨"Nin-Nin-Game", "Pokemon Card Box", "https://example.com/a", 30, 12,
              "New", "nng", "t", "fallback"⟩],
          ⟨0, 0, 0⟩⟩) id) = true :=
  ((claim_c5_strict_live true "Nin-Nin-Game" _ id (fun l => List.Perm.refl l)).1
      _ rfl).mpr ⟨rfl, rfl, by decide⟩

/-! #### Claim C9 -/

/-- Setting an index to the value it already holds is the identity. -/
theorem set_get_self : ∀ (l : List α) (i : ℕ) (a : α),
    l.get? i = some a → l.set i a = l
  | [], _, _, h => by simp at h
  | x :: t, 0, a, h => by
    obtain rfl : x = a := by simpa using h
    rfl
  | x :: t, i + 1, a, h => by
    simp only [List.get?] at h
    show x :: t.set i a = x :: t
    rw [set_get_self t i a h]

/-- Moving the j-th element to the head while writing `x` at position j is a
permutation of consing `x`. -/
theorem swap_cons_perm : ∀ (t : List α) (j : ℕ) (b x : α),
    t.get? j = some b → (b :: t.set j x).Perm (x :: t)
  | [], _, _, _, h => by simp at h
  | y :: t, 0, b, x, h => by
    have hb : b = y := by simpa using h.symm
    subst hb
    exact List.Perm.swap x b t
  | y :: t, j + 1, b, x, h => by
    simp only [List.get?] at h
    show (b :: y :: t.set j x).Perm (x :: y :: t)
    exact (List.Perm.swap y b (t.set j x)).trans
      (((swap_cons_perm t j b x h).cons y).trans (List.Perm.swap x y t))

/-- Exchanging the values at two positions (i < j) permutes the list. -/
theorem set_set_perm_lt : ∀ (l : List α) (i j : ℕ) (a b : α), i < j →
    l.get? i = some a → l.get? j = some b → ((l.set i b).set j a).Perm l
  | [], _, _, _, _, _, h, _ => by simp at h
  | _ :: _, 0, 0, _, _, hij, _, _ => absurd hij (lt_irrefl 0)
  | _ :: _, _ + 1, 0, _, _, hij, _, _ => absurd hij (Nat.not_lt_zero _)
  | x :: t, 0, j + 1, a, b, _, h1, h2 => by
    have ha : a = x := by simpa using h1.symm
    subst ha
    simp only [List.get?] at h2
    show (b :: t.set j a).Perm (a :: t)
    exact swap_cons_perm t j b a h2
  | x :: t, i + 1, j + 1, a, b, hij, h1, h2 => by
    simp only [List.get?] at h1 h2
    show (x :: (t.set i b).set j a).Perm (x :: t)
    exact (set_set_perm_lt t i j a b (Nat.lt_of_succ_lt_succ hij) h1 h2).cons x

/-- `listSwap` is always a permutation. -/
theorem listSwap_perm (l : List α) (i j : ℕ) : (listSwap l i j).Perm l := by
  unfold listSwap
  split
  · next a b h1 h2 =>
    rcases Nat.lt_trichotomy i j with hij | rfl | hji
    · exact set_set_perm_lt l i j a b hij h1 h2
    · obtain rfl : a = b := by rw [h1] at h2; exact Option.some.inj h2
      rw [List.set_set, set_get_self l i a h1]
    · rw [List.set_comm b a l (Nat.ne_of_gt hji)]
      exact set_set_perm_lt l j i b a hji h2 h1
  · exact List.Perm.refl l

/-- Every prefix of Fisher–Yates steps is a permutation. -/
theorem shuffleSteps_perm (stream : ℕ → ℕ) :
    ∀ (i k : ℕ) (l : List α), (shuffleSteps stream i k l).Perm l
  | 0, _, l => List.Perm.refl l
  | i + 1, k, l =>
    (shuffleSteps_perm stream i (k + 1) _).trans
      (listSwap_perm l (i + 1) (stream k % (i + 2)))

/-- A seeded `random.Random.shuffle` output is a permutation of its input. -/
theorem pyShuffle_perm (stream : ℕ → ℕ) (l : List α) : (pyShuffle stream l).Perm l :=
  shuffleSteps_perm stream (l.length - 1) 0 l

/-- Claim C9: with a (stripped) non-empty seed value present, the
order-diversity shuffle is a deterministic function of seed, source key,
purpose and input — two independent calls agree whatever the system RNG would
have done — and its output is a permutation of the input. -/
theorem claim_c9_shuffle_deterministic {α : Type} (hash16 : String → ℕ)
    (seeded_stream : ℕ → ℕ → ℕ) (sys1 sys2 : List α → List α)
    (seed_env source_key purpose : String) (items : List α)
    (hseed : pyStrip seed_env ≠ "") :
    shuffle_for_source seed_env hash16 seeded_stream sys1 items source_key purpose =
      shuffle_for_source seed_env hash16 seeded_stream sys2 items source_key purpose ∧
    (shuffle_for_source seed_env hash16 seeded_stream sys1 items
        source_key purpose).Perm items := by
  unfold shuffle_for_source
  split_ifs with h1
  · exact ⟨rfl, List.Perm.refl items⟩
  · exact ⟨rfl, pyShuffle_perm _ items⟩

/-- Witness for C9 at a concrete seed, stream and input. -/
theorem claim_c9_shuffle_deterministic_witness :
    shuffle_for_source "s7" (fun _ => 11) (fun n k => n + 3 * k) id
        [1, 2, 3, 4] "hlj" "queries" =
      shuffle_for_source "s7" (fun _ => 11) (fun n k => n + 3 * k)
        (fun _ => ([] : List ℕ)) [1, 2, 3, 4] "hlj" "queries" ∧
    (shuffle_for_source "s7" (fun _ => 11) (fun n k => n + 3 * k) id
        [1, 2, 3, 4] "hlj" "queries").Perm [1, 2, 3, 4] :=
  claim_c9_shuffle_deterministic _ _ _ _ _ _ _ _ (by decide)

/-! #### Claim C8 -/

/-- Appending one in-range row preserves the all-rows-in-range invariant. -/
theorem rows_append_inv (acc : List ProductRow) (row : ProductRow)
    (hacc : ∀ r ∈ acc, 5 ≤ r.source_price_gbp ∧ r.source_price_gbp ≤ 3000)
    (hrow : 5 ≤ row.source_price_gbp ∧ row.source_price_gbp ≤ 3000) :
    ∀ r ∈ acc ++ [row], 5 ≤ r.source_price_gbp ∧ r.source_price_gbp ≤ 3000 := by
  intro r hr
  rcases List.mem_append.mp hr with hr1 | hr2
  · exact hacc r hr1
  · obtain rfl := List.mem_singleton.mp hr2
    exact hrow

/-- Accumulator invariant of the anchor loop: starting strictly below the
30-row cap with only in-range rows, every produced row is in `[5, 3000]` and
the cap is respected. -/
theorem extract_html_go_bounds (table : RateTable)
    (urljoin_fn : String → String → String) (base_url : String) :
    ∀ (anchors : List AnchorMatch) (acc : List ProductRow),
    (∀ r ∈ acc, 5 ≤ r.source_price_gbp ∧ r.source_price_gbp ≤ 3000) →
    acc.length < 30 →
    (∀ r ∈ extract_html_go table urljoin_fn base_url anchors acc,
        5 ≤ r.source_price_gbp ∧ r.source_price_gbp ≤ 3000) ∧
    (extract_html_go table urljoin_fn base_url anchors acc).length ≤ 30
  | [], acc, hacc, hlen => ⟨hacc, le_of_lt hlen⟩
  | m :: rest, acc, hacc, hlen => by
    unfold extract_html_go
    dsimp only
    split_ifs with h1
    · exact extract_html_go_bounds table urljoin_fn base_url rest acc hacc hlen
    · split
      · exact extract_html_go_bounds table urljoin_fn base_url rest acc hacc hlen
      · next g1 g2 g3 g4 =>
        split
        · exact extract_html_go_bounds table urljoin_fn base_url rest acc hacc hlen
        · next amount hamount =>
          split_ifs with hg h2 h3 h4 h5
          · exact ⟨rows_append_inv acc _ hacc h2,
              by simp only [List.length_append, List.length_singleton]; omega⟩
          · apply extract_html_go_bounds table urljoin_fn base_url rest
            · exact rows_append_inv acc _ hacc h2
            · exact lt_of_not_le h3
          · exact extract_html_go_bounds table urljoin_fn base_url rest acc hacc hlen
          · exact ⟨rows_append_inv acc _ hacc h4,
              by simp only [List.length_append, List.length_singleton]; omega⟩
          · apply extract_html_go_bounds table urljoin_fn base_url rest
            · exact rows_append_inv acc _ hacc h4
            · exact lt_of_not_le h5
          · exact extract_html_go_bounds table urljoin_fn base_url rest acc hacc hlen

/-- Claim C8: every row produced by the heuristic HTML extractor has a
home-currency price within `[5, 3000]` (out-of-range candidates are dropped)
and at most 30 rows are returned, for every page content (anchor/price-match
list), base URL and rate table. -/
theorem claim_c8_extract_bounds (table : RateTable)
    (urljoin_fn : String → String → String) (base_url : String)
    (anchors : List AnchorMatch) :
    (∀ r ∈ extract_products_from_html table urljoin_fn base_url anchors,
        5 ≤ r.source_price_gbp ∧ r.source_price_gbp ≤ 3000) ∧
    (extract_products_from_html table urljoin_fn base_url anchors).length ≤ 30 :=
  extract_html_go_bounds table urljoin_fn base_url anchors []
    (by intro r hr; exact absurd hr (List.not_mem_nil r)) (by norm_num)

/-- Witness for C8 on a concrete JPY-priced anchor (the spec's `¥4,290`
example converts to 22.74 home units, inside the band). -/
theorem claim_c8_extract_bounds_witness :
    (extract_products_from_html _DEFAULT_CURRENCY_TO_GBP (fun b h => b ++ h)
        "https://www.nin-nin-game.com"
        [⟨"/en/example-item.html", "Example Item Name",
            some (some "¥", some "4,290", none, none)⟩]).length ≤ 30 :=
  (claim_c8_extract_bounds _ _ _ _).2

/-! #### Claim C4 -/

/-- The location loop leaves `trace` and the sitemap seen-set untouched,
extends the queue only with `.xml` locations drawn from its input, and obeys
the limit bound (at most `limit` URLs if it starts below, at most one more if
it starts at or above). -/
theorem processLocs_spec (H E : List String) (L : ℕ) :
    ∀ (locs : List String) (st : CrawlState),
    (processLocs H E L st locs).trace = st.trace ∧
    (processLocs H E L st locs).seen_sitemaps = st.seen_sitemaps ∧
    (∃ Δ, (processLocs H E L st locs).queue = st.queue ++ Δ ∧
      ∀ x ∈ Δ, x ∈ locs ∧ pyEndsWith x ".xml" = true) ∧
    (st.urls.length < L → (processLocs H E L st locs).urls.length ≤ L) ∧
    (L ≤ st.urls.length → (processLocs H E L st locs).urls.length ≤ st.urls.length + 1)
  | [], st =>
    ⟨rfl, rfl,
      ⟨[], (List.append_nil _).symm, fun x hx => absurd hx (List.not_mem_nil x)⟩,
      fun h => le_of_lt h, fun _ => Nat.le_succ _⟩
  | loc :: rest, st => by
    unfold processLocs
    split_ifs with hxml hseen hhint hexcl hseenu hlim
    · -- .xml location already seen: plain recursion
      obtain ⟨ht, hs, ⟨Δ, hq, hΔ⟩, hl1, hl2⟩ := processLocs_spec H E L rest st
      exact ⟨ht, hs,
        ⟨Δ, hq, fun x hx => ⟨List.mem_cons_of_mem _ (hΔ x hx).1, (hΔ x hx).2⟩⟩, hl1, hl2⟩
    · -- new .xml location: queued
      obtain ⟨ht, hs, ⟨Δ, hq, hΔ⟩, hl1, hl2⟩ :=
        processLocs_spec H E L rest { st with queue := st.queue ++ [loc] }
      refine ⟨ht, hs, ⟨[loc] ++ Δ, ?_, ?_⟩, hl1, hl2⟩
      · rw [hq]
        show (st.queue ++ [loc]) ++ Δ = _
        rw [List.append_assoc]
      · intro x hx
        rcases List.mem_append.mp hx with h1 | h2
        · obtain rfl := List.mem_singleton.mp h1
          exact ⟨List.mem_cons_self _ _, hxml⟩
        · exact ⟨List.mem_cons_of_mem _ (hΔ x h2).1, (hΔ x h2).2⟩
    · -- filtered by hints
      obtain ⟨ht, hs, ⟨Δ, hq, hΔ⟩, hl1, hl2⟩ := processLocs_spec H E L rest st
      exact ⟨ht, hs,
        ⟨Δ, hq, fun x hx => ⟨List.mem_cons_of_mem _ (hΔ x hx).1, (hΔ x hx).2⟩⟩, hl1, hl2⟩
    · -- filtered by excludes
      obtain ⟨ht, hs, ⟨Δ, hq, hΔ⟩, hl1, hl2⟩ := processLocs_spec H E L rest st
      exact ⟨ht, hs,
        ⟨Δ, hq, fun x hx => ⟨List.mem_cons_of_mem _ (hΔ x hx).1, (hΔ x hx).2⟩⟩, hl1, hl2⟩
    · -- product URL already collected
      obtain ⟨ht, hs, ⟨Δ, hq, hΔ⟩, hl1, hl2⟩ := processLocs_spec H E L rest st
      exact ⟨ht, hs,
        ⟨Δ, hq, fun x hx => ⟨List.mem_cons_of_mem _ (hΔ x hx).1, (hΔ x hx).2⟩⟩, hl1, hl2⟩
    · -- collected and limit reached: break
      refine ⟨rfl, rfl,
        ⟨[], (List.append_nil _).symm, fun x hx => absurd hx (List.not_mem_nil x)⟩, ?_, ?_⟩
      · intro h
        show (st.urls ++ [loc]).length ≤ L
        simp only [List.length_append, List.length_singleton]
        omega
      · intro _
        show (st.urls ++ [loc]).length ≤ st.urls.length + 1
        simp only [List.length_append, List.length_singleton]
        omega
    · -- collected, limit not reached: recurse
      obtain ⟨ht, hs, ⟨Δ, hq, hΔ⟩, hl1, hl2⟩ :=
        processLocs_spec H E L rest
          { st with seen_urls := st.seen_urls ++ [loc], urls := st.urls ++ [loc] }
      have hlt : (st.urls ++ [loc]).length < L := lt_of_not_le hlim
      refine ⟨ht, hs,
        ⟨Δ, hq, fun x hx => ⟨List.mem_cons_of_mem _ (hΔ x hx).1, (hΔ x hx).2⟩⟩, ?_, ?_⟩
      · intro _
        exact hl1 hlt
      · intro hge
        have : (st.urls ++ [loc]).length = st.urls.length + 1 := by
          simp only [List.length_append, List.length_singleton]
        omega

/-- One sitemap-document step: the queue grows only by `.xml` locations of the
fetched document, trace and seen-set grow by the document itself (when it was
not already seen), and both crawl invariants are preserved. -/
theorem processSitemap_spec (web : String → Option (List String))
    (H E : List String) (L : ℕ) (st : CrawlState) (sm : String) :
    ∃ Δq Δt,
      (processSitemap web H E L st sm).queue = st.queue ++ Δq ∧
      (processSitemap web H E L st sm).trace = st.trace ++ Δt ∧
      (processSitemap web H E L st sm).seen_sitemaps = st.seen_sitemaps ++ Δt ∧
      (∀ x ∈ Δt, x = sm) ∧
      (∀ x ∈ Δq, x ∈ xmlLocsOf web Δt) ∧
      (crawl_trace_inv st → crawl_trace_inv (processSitemap web H E L st sm)) ∧
      (crawl_len_inv L st → crawl_len_inv L (processSitemap web H E L st sm)) := by
  unfold processSitemap
  split_ifs with hseen
  · exact ⟨[], [], by simp, by simp, by simp,
      fun x hx => absurd hx (List.not_mem_nil x),
      fun x hx => absurd hx (List.not_mem_nil x), fun h => h, fun h => h⟩
  · cases hw : web sm with
    | none =>
      refine ⟨[], [sm], by simp, rfl, rfl, ?_, ?_, ?_, ?_⟩
      · intro x hx
        exact List.mem_singleton.mp hx
      · intro x hx
        exact absurd hx (List.not_mem_nil x)
      · rintro ⟨hnd, hsub⟩
        have hnotin : sm ∉ st.trace := fun hmem => hseen (hsub sm hmem)
        constructor
        · show (st.trace ++ [sm]).Nodup
          rw [List.nodup_append]
          refine ⟨hnd, List.nodup_singleton sm, ?_⟩
          intro a ha hb
          obtain rfl := List.mem_singleton.mp hb
          exact hnotin ha
        · intro x hx
          rcases List.mem_append.mp hx with h1 | h2
          · exact List.mem_append_left _ (hsub x h1)
          · exact List.mem_append_right _ h2
      · intro h
        unfold crawl_len_inv at h ⊢
        simp only [List.length_append, List.length_singleton]
        omega
    | some locs =>
      obtain ⟨ht, hs, ⟨Δ, hq, hΔ⟩, hl1, hl2⟩ :=
        processLocs_spec H E L locs
          { st with seen_sitemaps := st.seen_sitemaps ++ [sm], trace := st.trace ++ [sm] }
      refine ⟨Δ, [sm], hq, ht, hs, ?_, ?_, ?_, ?_⟩
      · intro x hx
        exact List.mem_singleton.mp hx
      · intro x hx
        simp only [xmlLocsOf, List.flatMap_cons, List.flatMap_nil, List.append_nil, hw,
          Option.getD_some]
        exact List.mem_filter.mpr ⟨(hΔ x hx).1, (hΔ x hx).2⟩
      · rintro ⟨hnd, hsub⟩
        have hnotin : sm ∉ st.trace := fun hmem => hseen (hsub sm hmem)
        constructor
        · rw [ht]
          show (st.trace ++ [sm]).Nodup
          rw [List.nodup_append]
          refine ⟨hnd, List.nodup_singleton sm, ?_⟩
          intro a ha hb
          obtain rfl := List.mem_singleton.mp hb
          exact hnotin ha
        · intro x hx
          rw [ht] at hx
          rw [hs]
          show x ∈ st.seen_sitemaps ++ [sm]
          rcases List.mem_append.mp hx with h1 | h2
          · exact List.mem_append_left _ (hsub x h1)
          · exact List.mem_append_right _ h2
      · intro h
        unfold crawl_len_inv at h ⊢
        dsimp only
        rw [ht]
        dsimp only at hl1 hl2 ⊢
        simp only [List.length_append, List.length_singleton]
        rcases Nat.lt_or_ge st.urls.length L with hlt | hge
        · have hb := hl1 hlt
          omega
        · have hb := hl2 hge
          omega

/-- `.xml` location pools concatenate over document lists. -/
theorem xmlLocsOf_append (web : String → Option (List String)) (a b : List String) :
    xmlLocsOf web (a ++ b) = xmlLocsOf web a ++ xmlLocsOf web b := by
  simp [xmlLocsOf]

/-- Folding one breadth level over a batch of sitemap documents: the trace
grows by a sub-collection of the batch, the queue grows only by `.xml`
locations of the documents actually fetched in this level, and both crawl
invariants are preserved. -/
theorem crawl_fold_spec (web : String → Option (List String))
    (H E : List String) (L : ℕ) :
    ∀ (batch : List String) (st : CrawlState),
    ∃ Δq Δt,
      (batch.foldl (processSitemap web H E L) st).queue = st.queue ++ Δq ∧
      (batch.foldl (processSitemap web H E L) st).trace = st.trace ++ Δt ∧
      (∀ x ∈ Δt, x ∈ batch) ∧
      (∀ x ∈ Δq, x ∈ xmlLocsOf web Δt) ∧
      (crawl_trace_inv st → crawl_trace_inv (batch.foldl (processSitemap web H E L) st)) ∧
      (crawl_len_inv L st → crawl_len_inv L (batch.foldl (processSitemap web H E L) st))
  | [], st =>
    ⟨[], [], by simp, by simp,
      fun x hx => absurd hx (List.not_mem_nil x),
      fun x hx => absurd hx (List.not_mem_nil x), fun h => h, fun h => h⟩
  | sm :: batch, st => by
    obtain ⟨Δq1, Δt1, hq1, ht1, hs1, hm1, hx1, hti1, hli1⟩ :=
      processSitemap_spec web H E L st sm
    obtain ⟨Δq2, Δt2, hq2, ht2, hm2, hx2, hti2, hli2⟩ :=
      crawl_fold_spec web H E L batch (processSitemap web H E L st sm)
    refine ⟨Δq1 ++ Δq2, Δt1 ++ Δt2, ?_, ?_, ?_, ?_, ?_, ?_⟩
    · show (batch.foldl (processSitemap web H E L) (processSitemap web H E L st sm)).queue = _
      rw [hq2, hq1, List.append_assoc]
    · show (batch.foldl (processSitemap web H E L) (processSitemap web H E L st sm)).trace = _
      rw [ht2, ht1, List.append_assoc]
    · intro x hx
      rcases List.mem_append.mp hx with h1 | h2
      · obtain rfl := hm1 x h1
        exact List.mem_cons_self _ _
      · exact List.mem_cons_of_mem _ (hm2 x h2)
    · intro x hx
      rw [xmlLocsOf_append]
      rcases List.mem_append.mp hx with h1 | h2
      · exact List.mem_append_left _ (hx1 x h1)
      · exact List.mem_append_right _ (hx2 x h2)
    · exact fun h => hti2 (hti1 h)
    · exact fun h => hli2 (hli1 h)

/-- The bounded while-loop: the final trace extends the initial one by at most
`fuel` breadth levels, chained so that each level is drawn from the `.xml`
pool of the previous one, and both crawl invariants are preserved. -/
theorem crawlLoop_spec (web : String → Option (List String))
    (H E : List String) (L : ℕ) :
    ∀ (fuel : ℕ) (st : CrawlState) (pool : List String),
    (∀ x ∈ st.queue, x ∈ pool) →
    ∃ ts : List (List String),
      ts.length ≤ fuel ∧
      (crawlLoop web H E L fuel st).trace = st.trace ++ ts.flatten ∧
      trace_levels_chain web pool ts ∧
      (crawl_trace_inv st → crawl_trace_inv (crawlLoop web H E L fuel st)) ∧
      (crawl_len_inv L st → crawl_len_inv L (crawlLoop web H E L fuel st))
  | 0, st, pool, _ =>
    ⟨[], Nat.le_refl 0, by simp [crawlLoop], trivial, fun h => h, fun h => h⟩
  | fuel + 1, st, pool, hpool => by
    unfold crawlLoop
    split_ifs with hguard
    · exact ⟨[], Nat.zero_le _, by simp, trivial, fun h => h, fun h => h⟩
    · obtain ⟨Δq, Δt, hq, ht, hm, hx, hti, hli⟩ :=
        crawl_fold_spec web H E L st.queue { st with queue := [] }
      have hq1 : (crawlLevel web H E L st).queue = Δq := by
        unfold crawlLevel
        rw [hq]
        rfl
      have ht1 : (crawlLevel web H E L st).trace = st.trace ++ Δt := by
        unfold crawlLevel
        rw [ht]
      have hpool2 : ∀ x ∈ (crawlLevel web H E L st).queue, x ∈ xmlLocsOf web Δt := by
        rw [hq1]
        exact hx
      obtain ⟨ts, hlen, htr, hchain, hti2, hli2⟩ :=
        crawlLoop_spec web H E L fuel (crawlLevel web H E L st) (xmlLocsOf web Δt) hpool2
      refine ⟨Δt :: ts, Nat.succ_le_succ hlen, ?_, ?_, ?_, ?_⟩
      · rw [htr, ht1, List.flatten_cons, List.append_assoc]
      · exact ⟨fun x hxx => hpool x (hm x hxx), hchain⟩
      · intro h
        exact hti2 (hti h)
      · intro h
        exact hli2 (hli h)

/-- Claim C4 counterexample: on a sitemap index with two child sitemaps of one
product URL each and `limit = 1`, the crawl returns 2 product URLs — the inner
`break` only leaves the location loop of the current sitemap document, so each
further document of the same breadth level contributes one more URL past the
limit. -/
theorem claim_c4_counterexample :
    ¬ ((fetch_sitemap_product_urls sitemap_web_example "https://shop.example"
        [] [] 1).urls.length ≤ 1) := by
  decide

/-- Claim C4 as amended: for every sitemap graph and limit, the crawl fetches
sitemap documents in at most 3 breadth levels (the trace splits into three
chained levels: the first contains at most the root sitemap URL, and each
later level only documents that appeared as `.xml` locations of the previous
level), never fetches the same sitemap document twice, and collects at most
`limit − 1` plus one URL per fetched sitemap document — within one document
collection stops as soon as `limit` is reached, but each document processed
after that point in the same breadth level may contribute one more URL, so
`limit` itself can be overshot. -/
theorem claim_c4_sitemap_crawl_amended (web : String → Option (List String))
    (home_url : String) (H E : List String) (L : ℕ) :
    (fetch_sitemap_product_urls web home_url H E L).trace.Nodup ∧
    (fetch_sitemap_product_urls web home_url H E L).urls.length ≤
      (L - 1) + (fetch_sitemap_product_urls web home_url H E L).trace.length ∧
    ∃ t1 t2 t3,
      (fetch_sitemap_product_urls web home_url H E L).trace = t1 ++ t2 ++ t3 ∧
      (∀ x ∈ t1, x = rstripSlashes home_url ++ "/sitemap.xml") ∧
      (∀ x ∈ t2, x ∈ xmlLocsOf web t1) ∧
      (∀ x ∈ t3, x ∈ xmlLocsOf web t2) := by
  obtain ⟨ts, hlen, htr, hchain, hti, hli⟩ :=
    crawlLoop_spec web H E L 3
      { queue := [rstripSlashes home_url ++ "/sitemap.xml"],
        seen_sitemaps := [], urls := [], seen_urls := [], trace := [] }
      [rstripSlashes home_url ++ "/sitemap.xml"]
      (fun x hx => hx)
  have hTI := hti ⟨List.nodup_nil, fun x hx => absurd hx (List.not_mem_nil x)⟩
  have hLI := hli (by unfold crawl_len_inv; simp)
  refine ⟨hTI.1, hLI, ?_⟩
  have htr2 : (fetch_sitemap_product_urls web home_url H E L).trace = ts.flatten := by
    unfold fetch_sitemap_product_urls
    rw [htr]
    rfl
  rcases ts with _ | ⟨a, _ | ⟨b, _ | ⟨c, _ | ⟨d, rest⟩⟩⟩⟩
  · refine ⟨[], [], [], by simpa using htr2, ?_, ?_, ?_⟩ <;>
      exact fun x hx => absurd hx (List.not_mem_nil x)
  · refine ⟨a, [], [], by simpa using htr2, ?_, ?_, ?_⟩
    · intro x hx
      exact List.mem_singleton.mp (hchain.1 x hx)
    · exact fun x hx => absurd hx (List.not_mem_nil x)
    · exact fun x hx => absurd hx (List.not_mem_nil x)
  · refine ⟨a, b, [], by simpa using htr2, ?_, ?_, ?_⟩
    · intro x hx
      exact List.mem_singleton.mp (hchain.1 x hx)
    · exact hchain.2.1
    · exact fun x hx => absurd hx (List.not_mem_nil x)
  · refine ⟨a, b, c, by simpa using htr2, ?_, ?_, ?_⟩
    · intro x hx
      exact List.mem_singleton.mp (hchain.1 x hx)
    · exact hchain.2.1
    · exact hchain.2.2.1
  · simp at hlen

/-- Witness for C4's amended statement on the concrete overshooting graph:
even there, no sitemap document is fetched twice. -/
theorem claim_c4_sitemap_crawl_amended_witness :
    (fetch_sitemap_product_urls sitemap_web_example "https://shop.example"
        [] [] 1).trace.Nodup :=
  (claim_c4_sitemap_crawl_amended sitemap_web_example "https://shop.example" [] [] 1).1
